import Mathlib

set_option maxHeartbeats 1000000

/- Verification of the block-flush lifecycle coordinator and the time-interval
   set of the m3 storage node.  Instants are modelled as integer seconds since
   the Unix epoch (the configured block size of two hours divides the distance
   between the epoch and Go's zero time, so Go's Truncate on these instants is
   flooring to a multiple of the block size). -/

/-- Modelled from the spec: the interval-set implementation of the x/time
package is absent from the sources; only its test file is present.  A Range is
a closed interval with integer instants, well-formed when Start is at most
End, zero-length (and inert) when they are equal. -/
structure Range where
  Start : Int
  End : Int
  deriving DecidableEq, Repr

/-- Modelled from the spec: the overlap-or-touch test used by AddRange,
existing.Start le r.End and r.Start le existing.End. -/
def Range.touches (ex r : Range) : Bool :=
  decide (ex.Start ≤ r.End) && decide (r.Start ≤ ex.End)

/-- Fold computing the minimum Start of a merge group, seeded with r.Start. -/
def minStartFold (l : List Range) (a : Int) : Int :=
  l.foldl (fun acc ex => min acc ex.Start) a

/-- Fold computing the maximum End of a merge group, seeded with r.End. -/
def maxEndFold (l : List Range) (a : Int) : Int :=
  l.foldl (fun acc ex => max acc ex.End) a

/-- Insertion keeping the stored sequence sorted ascending by Start. -/
def insertSorted : List Range → Range → List Range
  | [], r => [r]
  | x :: xs, r => if r.Start ≤ x.Start then r :: x :: xs else x :: insertSorted xs r

/-- Modelled from the spec: AddRange inserts r, merging with every stored
range that overlaps or touches it into a single replacement range spanning
the group's minimum Start and maximum End, keeping the rest sorted; a
zero-length r is a no-op. -/
def AddRange (s : List Range) (r : Range) : List Range :=
  if r.Start = r.End then s
  else
    insertSorted (s.filter (fun ex => !(Range.touches ex r)))
      (Range.mk (minStartFold (s.filter (fun ex => Range.touches ex r)) r.Start)
        (maxEndFold (s.filter (fun ex => Range.touches ex r)) r.End))

/-- Modelled from the spec: subtraction of r from one stored range, covering
the drop, shrink-left, shrink-right and split cases; a disjoint or merely
touching r leaves the stored range alone. -/
def Range.subtract (ex r : Range) : List Range :=
  if r.End ≤ ex.Start ∨ ex.End ≤ r.Start then [ex]
  else
    (if ex.Start < r.Start then [Range.mk ex.Start r.Start] else []) ++
      (if r.End < ex.End then [Range.mk r.End ex.End] else [])

/-- Pointwise application of Range.subtract across the stored sequence. -/
def removeRangeGo : List Range → Range → List Range
  | [], _ => []
  | ex :: rest, r => Range.subtract ex r ++ removeRangeGo rest r

/-- Modelled from the spec: RemoveRange subtracts r from every overlapping
stored range; a zero-length r is a no-op. -/
def RemoveRange (s : List Range) (r : Range) : List Range :=
  if r.Start = r.End then s else removeRangeGo s r

/-- Modelled from the spec: AddRanges applies AddRange for every range of the
other set in ascending order; an empty other set is a no-op. -/
def AddRanges (s : List Range) (other : List Range) : List Range :=
  other.foldl AddRange s

/-- Modelled from the spec: RemoveRanges applies RemoveRange likewise. -/
def RemoveRanges (s : List Range) (other : List Range) : List Range :=
  other.foldl RemoveRange s

/-- A point is covered by a stored sequence when some stored closed interval
contains it. -/
def covered (s : List Range) (p : Int) : Prop :=
  ∃ ex ∈ s, ex.Start ≤ p ∧ p ≤ ex.End

/-- The representation invariant of the interval set: stored ranges are
non-empty and pairwise separated (strictly non-touching), which also sorts
them ascending by Start. -/
def RangesInv (s : List Range) : Prop :=
  List.Pairwise (fun a b => a.End < b.Start) s ∧ ∀ ex ∈ s, ex.Start < ex.End

/-- Modelled from the spec: copy-on-write heap for interval sets.  The store
holds every allocated sequence; a reference is an index into it.  Mutating
operations clone before mutating: they allocate the changed sequence at a
fresh index and never overwrite an existing slot. -/
structure RangesStore where
  objs : List (List Range)
  deriving DecidableEq, Repr

/-- Reading a reference out of the store. -/
def RangesStore.read (w : RangesStore) (ref : Nat) : List Range :=
  w.objs.getD ref []

/-- Modelled from the spec: AddRange on a reference, clone-before-mutate. -/
def addRangeRef (w : RangesStore) (ref : Nat) (r : Range) : RangesStore × Nat :=
  (RangesStore.mk (w.objs ++ [AddRange (w.read ref) r]), w.objs.length)

/-- Modelled from the spec: RemoveRange on a reference, clone-before-mutate. -/
def removeRangeRef (w : RangesStore) (ref : Nat) (r : Range) : RangesStore × Nat :=
  (RangesStore.mk (w.objs ++ [RemoveRange (w.read ref) r]), w.objs.length)

/-- Modelled from the spec: AddRanges on a reference, clone-before-mutate. -/
def addRangesRef (w : RangesStore) (ref : Nat) (other : List Range) : RangesStore × Nat :=
  (RangesStore.mk (w.objs ++ [AddRanges (w.read ref) other]), w.objs.length)

/-- Modelled from the spec: RemoveRanges on a reference, clone-before-mutate. -/
def removeRangesRef (w : RangesStore) (ref : Nat) (other : List Range) : RangesStore × Nat :=
  (RangesStore.mk (w.objs ++ [RemoveRanges (w.read ref) other]), w.objs.length)

/-- Per-block and database-global flush status values, as in the storage
package. -/
inductive FlushStatus where
  | flushNotStarted
  | flushInProgress
  | flushSuccess
  | flushFailed
  deriving DecidableEq, Repr

open FlushStatus

/-- Per-block flush bookkeeping: status and failure count. -/
structure flushState where
  status : FlushStatus
  numFailures : Nat
  deriving DecidableEq, Repr

/-- Bootstrap state of the database. -/
inductive BootstrapState where
  | notBootstrapped
  | bootstrapped
  deriving DecidableEq, Repr

open BootstrapState

/-- The configuration surface consumed by the flush coordinator (durations in
seconds). -/
structure DatabaseOptions where
  blockSize : Int
  retentionPeriod : Int
  bufferPast : Int
  bufferFuture : Int
  maxFlushRetries : Nat
  deriving DecidableEq, Repr

/-- Point lookup in the flush state table (an association list keyed by block
start). -/
def lookupFS : List (Int × flushState) → Int → Option flushState
  | [], _ => none
  | (k, v) :: rest, t => if k = t then some v else lookupFS rest t

/-- Insert-or-update in the flush state table. -/
def insertFS : List (Int × flushState) → Int → flushState → List (Int × flushState)
  | [], t, v => [(t, v)]
  | (k, w) :: rest, t, v => if k = t then (t, v) :: rest else (k, w) :: insertFS rest t v

/-- The status stored for a block start, when any. -/
def statusAt (m : List (Int × flushState)) (t : Int) : Option FlushStatus :=
  (lookupFS m t).map (fun st => st.status)

/-- The failure count recorded for a block start, zero when never attempted. -/
def prevNumFailures (m : List (Int × flushState)) (t : Int) : Nat :=
  match lookupFS m t with
  | none => 0
  | some st => st.numFailures

/-- Modelled from the spec: the db value of the storage package (its
implementation file is absent from the sources; only its test file is
present): options, bootstrap state bs, database-global flush status fs, and
the flush state table flushAttempted. -/
structure DbState where
  opts : DatabaseOptions
  bs : BootstrapState
  fs : FlushStatus
  flushAttempted : List (Int × flushState)
  deriving DecidableEq, Repr

/-- Go's Time.Truncate on block-size-aligned epoch seconds: flooring to a
multiple of d. -/
def timeTruncate (t d : Int) : Int := d * (t / d)

/-- Modelled from the spec: the most recent block-aligned boundary that is
safely flushable at the tick (one block size plus the buffer-past window
behind the tick, truncated down to a block boundary), clamped to never
precede the epoch origin.  The formula is pinned by TestGetFirstBlockStart
and by the firstBlockStart computation of TestNeedDiskFlushAttemptedBefore. -/
def getFirstBlockStart (opts : DatabaseOptions) (tickStart : Int) : Int :=
  max 0 (timeTruncate (tickStart - opts.blockSize - opts.bufferPast) opts.blockSize)

/-- Modelled from the spec: needDiskFlush requires bootstrapped state and an
idle global flush status; per TestNeedDiskFlushAttemptedBefore it further
requires that no flush has been recorded for the first block start. -/
def needDiskFlush (d : DbState) (now : Int) : Bool :=
  decide (d.bs = bootstrapped) && decide (d.fs = flushNotStarted) &&
    (lookupFS d.flushAttempted (getFirstBlockStart d.opts now)).isNone

/-- Descending enumeration of block boundaries, from t down by blockSize while
strictly after the earliest bound, with fuel for structural recursion. -/
def flushCandidatesGo (blockSize earliest : Int) : Nat → Int → List Int
  | 0, _ => []
  | Nat.succ n, t =>
    if earliest < t then t :: flushCandidatesGo blockSize earliest n (t - blockSize) else []

/-- Fuel that dominates the number of retained blocks. -/
def flushFuel (opts : DatabaseOptions) : Nat :=
  (opts.retentionPeriod / opts.blockSize).toNat + 2

/-- Modelled from the spec: the candidate window of a tick, descending from
getFirstBlockStart through every block boundary strictly newer than tickStart
minus the retention period (the window pinned by TestGetTimesToFlush). -/
def candidateTimes (opts : DatabaseOptions) (tickStart : Int) : List Int :=
  flushCandidatesGo opts.blockSize (tickStart - opts.retentionPeriod) (flushFuel opts)
    (getFirstBlockStart opts tickStart)

/-- Modelled from the spec: a block is still flushable when never attempted,
or failed with fewer failures than MaxFlushRetries; success, in-progress and
retry-exhausted blocks are excluded. -/
def flushable (maxRetries : Nat) (m : List (Int × flushState)) (t : Int) : Bool :=
  match lookupFS m t with
  | none => true
  | some st => decide (st.status = flushFailed) && decide (st.numFailures < maxRetries)

/-- Reservation of one block: its state becomes in-progress, its failure
count is kept. -/
def reserveBlock (m : List (Int × flushState)) (t : Int) : List (Int × flushState) :=
  insertFS m t (flushState.mk flushInProgress (prevNumFailures m t))

/-- Modelled from the spec: getTimesToFlush returns the flushable candidates
most-recent-first and, as a side effect, reserves each returned timestamp by
setting its state to in-progress (keeping its failure count) in the flush
state table. -/
def getTimesToFlush (d : DbState) (tickStart : Int) : List Int × DbState :=
  let times := (candidateTimes d.opts tickStart).filter
    (flushable d.opts.maxFlushRetries d.flushAttempted)
  (times, { d with flushAttempted := times.foldl reserveBlock d.flushAttempted })

/-- The external shard capability: an id and the success or failure of
FlushToDisk at each block start. -/
structure Shard where
  shardNum : Nat
  flushOk : Int → Bool

/-- Modelled from the spec: flushToDiskWithTime fans FlushToDisk out to every
shard, never skipping a shard after a failure, and returns true iff every
shard succeeded; the second component is the trace of shard calls made, as
(shard id, block start) pairs. -/
def flushToDiskWithTime (shards : List Shard) (blockStart : Int) : Bool × List (Nat × Int) :=
  shards.foldl
    (fun acc s => (acc.1 && s.flushOk blockStart, acc.2 ++ [(s.shardNum, blockStart)]))
    (true, [])

/-- Modelled from the spec: one scheduled block of a flush cycle; on success
the state becomes success with the failure count unchanged, on failure it
becomes failed with the count incremented. -/
def flushOneBlock (shards : List Shard) (st : DbState × List (Nat × Int)) (t : Int) :
    DbState × List (Nat × Int) :=
  let r := flushToDiskWithTime shards t
  let prev := prevNumFailures st.1.flushAttempted t
  ({ st.1 with
      flushAttempted := insertFS st.1.flushAttempted t
        (if r.1 then flushState.mk flushSuccess prev else flushState.mk flushFailed (prev + 1)) },
    st.2 ++ r.2)

/-- Modelled from the spec: the tick-driven entry point.  Unless forced, it
short-circuits when needDiskFlush fails; otherwise it marks the global status
in-progress, reserves the times to flush, flushes each, and resets the global
status to idle.  The second component is the trace of shard calls made. -/
def flushToDisk (d : DbState) (shards : List Shard) (tickStart : Int) (forced : Bool) :
    DbState × List (Nat × Int) :=
  if !forced && !needDiskFlush d tickStart then (d, [])
  else
    let p := getTimesToFlush { d with fs := flushInProgress } tickStart
    let res := p.1.foldl (flushOneBlock shards) (p.2, [])
    ({ res.1 with fs := flushNotStarted }, res.2)

/-- The list of block starts a flush cycle at this tick schedules. -/
def scheduledTimes (d : DbState) (tickStart : Int) : List Int :=
  (getTimesToFlush d tickStart).1

/-- The options of the storage tests: block size 2h, retention 2 days,
buffer-past and buffer-future 10 minutes, MaxFlushRetries 3. -/
def testOpts : DatabaseOptions := DatabaseOptions.mk 7200 172800 600 600 3

/-- The flush state table of TestGetTimesToFlush and TestFlushToDisk. -/
def testFlushTable : List (Int × flushState) :=
  [(21600, flushState.mk flushFailed 2), (28800, flushState.mk flushFailed 3),
    (36000, flushState.mk flushInProgress 0), (43200, flushState.mk flushSuccess 1)]

/-- The bootstrapped database of the flush tests. -/
def testDb : DbState := DbState.mk testOpts bootstrapped flushNotStarted testFlushTable

/-- The two mocked shards of TestFlushToDisk: FlushToDisk succeeds on every
block before 180000s and fails at 180000s. -/
def testShards : List Shard :=
  [Shard.mk 0 (fun t => decide (t < 180000)), Shard.mk 1 (fun t => decide (t < 180000))]

/-- The twenty block starts TestGetTimesToFlush expects, most-recent-first. -/
def expectedTimesToFlush : List Int :=
  [180000, 172800, 165600, 158400, 151200, 144000, 136800, 129600, 122400, 115200,
    108000, 100800, 93600, 86400, 79200, 72000, 64800, 57600, 50400, 21600]

/-- The nineteen block starts TestFlushToDisk expects to reach success. -/
def expectedSuccessTimes : List Int :=
  [21600, 50400, 57600, 64800, 72000, 79200, 86400, 93600, 100800, 108000,
    115200, 122400, 129600, 136800, 144000, 151200, 158400, 165600, 172800]

/-- A bootstrapped, idle database whose table already records an attempt for
the first block start of tick 100000s (which is 86400s), after
TestNeedDiskFlushAttemptedBefore. -/
def attemptedDb : DbState :=
  DbState.mk testOpts bootstrapped flushNotStarted [(86400, flushState.mk flushInProgress 0)]

/-- A bootstrapped database with an empty flush state table. -/
def emptyTableDb : DbState := DbState.mk testOpts bootstrapped flushNotStarted []

/-- The test database while a flush cycle is in progress. -/
def flushingDb : DbState := DbState.mk testOpts bootstrapped flushInProgress testFlushTable

/-- A one-object interval-set store used as a concrete witness. -/
def testStore : RangesStore := RangesStore.mk [[Range.mk 0 1]]

/-- Replication of TestGetTimesToFlush: at tick 188000s on the test table the
twenty expected block starts come back, most-recent-first. -/
theorem test_getTimesToFlush :
    (getTimesToFlush testDb 188000).1 = expectedTimesToFlush := by decide

/-- Replication of TestGetFirstBlockStart: the three pinned tick/result
pairs. -/
theorem test_getFirstBlockStart :
    getFirstBlockStart testOpts 14900 = 0 ∧ getFirstBlockStart testOpts 15000 = 7200 ∧
      getFirstBlockStart testOpts 15100 = 7200 := by decide

/-- Replication of TestNeedDiskFlushDuringBootstrap and
TestNeedDiskFlushWhileFlushing at tick 1500000000s. -/
theorem test_needDiskFlush_gates :
    needDiskFlush (DbState.mk testOpts notBootstrapped flushNotStarted []) 1500000000 = false ∧
      needDiskFlush (DbState.mk testOpts bootstrapped flushNotStarted []) 1500000000 = true ∧
      needDiskFlush (DbState.mk testOpts bootstrapped flushInProgress []) 1500000000 = false := by
  decide

/-- Replication of TestNeedDiskFlushAttemptedBefore at tick 1500000000s: the
first block start is 1499990400s; recording an in-progress attempt for it
flips needDiskFlush to false. -/
theorem test_needDiskFlush_attempted :
    needDiskFlush (DbState.mk testOpts bootstrapped flushNotStarted
        [(1499990400, flushState.mk flushInProgress 0)]) 1500000000 = false := by decide

/-- Replication of TestFlushToDisk: after the cycle at tick 188000s the
nineteen expected blocks are marked success, 180000s is marked failed with
one failure, and the global status is reset to idle. -/
theorem test_flushToDisk :
    (flushToDisk testDb testShards 188000 false).1.fs = flushNotStarted ∧
      lookupFS (flushToDisk testDb testShards 188000 false).1.flushAttempted 180000 =
        some (flushState.mk flushFailed 1) ∧
      expectedSuccessTimes.all
        (fun t =>
          decide (statusAt (flushToDisk testDb testShards 188000 false).1.flushAttempted t =
            some flushSuccess)) = true := by decide

/-- Replication of TestAddRange (with testStart taken as 0s): the first four
insertions stay separate and sorted, the later ones merge as expected, and a
zero-length insertion is a no-op. -/
theorem test_AddRange :
    AddRange (AddRange (AddRange (AddRange [] (Range.mk 0 1)) (Range.mk 10 15))
        (Range.mk (-3) (-1))) (Range.mk (-8) (-5)) =
      [Range.mk (-8) (-5), Range.mk (-3) (-1), Range.mk 0 1, Range.mk 10 15] ∧
    AddRange [Range.mk (-8) (-5), Range.mk (-3) (-1), Range.mk 0 1, Range.mk 10 15]
        (Range.mk (-1) 0) =
      [Range.mk (-8) (-5), Range.mk (-3) 1, Range.mk 10 15] ∧
    AddRange [Range.mk (-8) (-5), Range.mk (-3) 1, Range.mk 10 15] (Range.mk 1 8) =
      [Range.mk (-8) (-5), Range.mk (-3) 8, Range.mk 10 15] ∧
    AddRange [Range.mk (-8) (-5), Range.mk (-3) 8, Range.mk 10 15] (Range.mk (-10) 12) =
      [Range.mk (-10) 15] ∧
    AddRange [] (Range.mk 0 0) = [] := by decide

/-- Replication of TestRemoveRange (with testStart taken as 0s): the four
removals produce the expected tables, a zero-length removal is a no-op, and
removing the spanning range empties the set. -/
theorem test_RemoveRange :
    RemoveRange [Range.mk (-8) (-5), Range.mk (-3) (-1), Range.mk 0 1, Range.mk 10 15]
        (Range.mk (-5) (-3)) =
      [Range.mk (-8) (-5), Range.mk (-3) (-1), Range.mk 0 1, Range.mk 10 15] ∧
    RemoveRange [Range.mk (-8) (-5), Range.mk (-3) (-1), Range.mk 0 1, Range.mk 10 15]
        (Range.mk (-6) 8) =
      [Range.mk (-8) (-6), Range.mk 10 15] ∧
    RemoveRange [Range.mk (-8) (-6), Range.mk 10 15] (Range.mk 12 13) =
      [Range.mk (-8) (-6), Range.mk 10 12, Range.mk 13 15] ∧
    RemoveRange [Range.mk (-8) (-6), Range.mk 10 12, Range.mk 13 15] (Range.mk 10 12) =
      [Range.mk (-8) (-6), Range.mk 13 15] ∧
    RemoveRange [Range.mk (-8) (-6), Range.mk 13 15] (Range.mk 0 0) =
      [Range.mk (-8) (-6), Range.mk 13 15] ∧
    RemoveRange [Range.mk (-8) (-6), Range.mk 13 15] (Range.mk (-10) 15) = [] := by decide

theorem lookupFS_insertFS_self (m : List (Int × flushState)) (t : Int) (v : flushState) :
    lookupFS (insertFS m t v) t = some v := by
  induction m with
  | nil => simp [insertFS, lookupFS]
  | cons hd tl ih =>
    obtain ⟨k, w⟩ := hd
    by_cases h : k = t
    · subst h; simp [insertFS, lookupFS]
    · simp [insertFS, lookupFS, h, ih]

theorem lookupFS_insertFS_ne (m : List (Int × flushState)) (t t' : Int) (v : flushState)
    (h : t' ≠ t) : lookupFS (insertFS m t v) t' = lookupFS m t' := by
  induction m with
  | nil => simp [insertFS, lookupFS, Ne.symm h]
  | cons hd tl ih =>
    obtain ⟨k, w⟩ := hd
    by_cases hk : k = t
    · subst hk
      have hk' : ¬ k = t' := fun hh => h hh.symm
      simp [insertFS, lookupFS, hk']
    · by_cases hkt : k = t'
      · subst hkt; simp [insertFS, lookupFS, hk]
      · simp [insertFS, lookupFS, hk, hkt, ih]

theorem lookupFS_foldl_reserveBlock_not_mem :
    ∀ (ts : List Int) (m : List (Int × flushState)) (t : Int), t ∉ ts →
      lookupFS (ts.foldl reserveBlock m) t = lookupFS m t := by
  intro ts
  induction ts with
  | nil => intro m t _; rfl
  | cons a rest ih =>
    intro m t ht
    have h1 : t ≠ a := fun h => ht (h ▸ List.mem_cons_self a rest)
    have h2 : t ∉ rest := fun h => ht (List.mem_cons_of_mem a h)
    simp only [List.foldl_cons]
    rw [ih _ _ h2, reserveBlock, lookupFS_insertFS_ne _ _ _ _ h1]

theorem lookupFS_foldl_reserveBlock_mem :
    ∀ (ts : List Int) (m : List (Int × flushState)) (t : Int), ts.Nodup → t ∈ ts →
      lookupFS (ts.foldl reserveBlock m) t =
        some (flushState.mk flushInProgress (prevNumFailures m t)) := by
  intro ts
  induction ts with
  | nil => intro m t _ h; cases h
  | cons a rest ih =>
    intro m t hnd hm
    simp only [List.foldl_cons]
    rcases List.mem_cons.mp hm with rfl | hmem
    · have ha : t ∉ rest := (List.nodup_cons.mp hnd).1
      rw [lookupFS_foldl_reserveBlock_not_mem rest _ t ha, reserveBlock, lookupFS_insertFS_self]
    · have hne : t ≠ a := by
        rintro rfl; exact (List.nodup_cons.mp hnd).1 hmem
      rw [ih _ _ (List.nodup_cons.mp hnd).2 hmem]
      have hpres : prevNumFailures (reserveBlock m a) t = prevNumFailures m t := by
        unfold prevNumFailures reserveBlock
        rw [lookupFS_insertFS_ne _ _ _ _ hne]
      rw [hpres]

theorem flushCandidatesGo_mem_le {b e : Int} (hb : 0 < b) :
    ∀ (n : Nat) (t x : Int), x ∈ flushCandidatesGo b e n t → x ≤ t := by
  intro n
  induction n with
  | zero => intro t x h; simp [flushCandidatesGo] at h
  | succ n ih =>
    intro t x h
    simp only [flushCandidatesGo] at h
    by_cases he : e < t
    · rw [if_pos he] at h
      rcases List.mem_cons.mp h with rfl | h'
      · exact le_refl x
      · have := ih (t - b) x h'
        linarith
    · rw [if_neg he] at h; cases h

theorem flushCandidatesGo_pairwise {b e : Int} (hb : 0 < b) :
    ∀ (n : Nat) (t : Int),
      List.Pairwise (fun x y => y < x) (flushCandidatesGo b e n t) := by
  intro n
  induction n with
  | zero => intro t; simp [flushCandidatesGo]
  | succ n ih =>
    intro t
    simp only [flushCandidatesGo]
    by_cases he : e < t
    · rw [if_pos he]
      refine List.Pairwise.cons ?_ (ih (t - b))
      intro y hy
      have := flushCandidatesGo_mem_le hb n (t - b) y hy
      linarith
    · rw [if_neg he]; exact List.Pairwise.nil

theorem flushCandidatesGo_mem {b e : Int} (hb : 0 < b) :
    ∀ (n : Nat) (t x : Int),
      x ∈ flushCandidatesGo b e n t ↔ ∃ k : Nat, k < n ∧ x = t - (k : Int) * b ∧ e < x := by
  intro n
  induction n with
  | zero => intro t x; simp [flushCandidatesGo]
  | succ n ih =>
    intro t x
    simp only [flushCandidatesGo]
    by_cases he : e < t
    · rw [if_pos he]
      constructor
      · intro h
        rcases List.mem_cons.mp h with rfl | h'
        · exact ⟨0, Nat.succ_pos n, by simp, he⟩
        · obtain ⟨k, hk, hx, hex⟩ := (ih (t - b) x).mp h'
          refine ⟨k + 1, by omega, ?_, hex⟩
          have hc : ((k + 1 : Nat) : Int) * b = (k : Int) * b + b := by push_cast; ring
          rw [hc]; linarith
      · rintro ⟨k, hk, hx, hex⟩
        cases k with
        | zero =>
          have hx' : x = t := by simpa using hx
          rw [hx']; exact List.mem_cons_self t _
        | succ k =>
          refine List.mem_cons_of_mem t ((ih (t - b) x).mpr ⟨k, by omega, ?_, hex⟩)
          have hc : ((k + 1 : Nat) : Int) * b = (k : Int) * b + b := by push_cast; ring
          rw [hc] at hx; linarith
    · rw [if_neg he]
      simp only [List.not_mem_nil, false_iff]
      rintro ⟨k, hk, hx, hex⟩
      have h0 : (0 : Int) ≤ (k : Int) * b := mul_nonneg (Int.natCast_nonneg k) (le_of_lt hb)
      have : x ≤ t := by rw [hx]; linarith
      exact he (lt_of_lt_of_le hex this)

theorem timeTruncate_le {t b : Int} (hb : 0 < b) : timeTruncate t b ≤ t := by
  unfold timeTruncate
  have h1 := Int.ediv_add_emod t b
  have h2 := Int.emod_nonneg t (ne_of_gt hb)
  linarith

theorem timeTruncate_dvd (t b : Int) : b ∣ timeTruncate t b := ⟨t / b, rfl⟩

theorem getFirstBlockStart_le (opts : DatabaseOptions) (tickStart : Int)
    (hb : 0 < opts.blockSize) (hp : 0 ≤ opts.bufferPast) (ht : 0 ≤ tickStart) :
    getFirstBlockStart opts tickStart ≤ tickStart := by
  unfold getFirstBlockStart
  have h1 := timeTruncate_le (t := tickStart - opts.blockSize - opts.bufferPast) hb
  exact max_le ht (by linarith)

theorem fuel_mul_gt (opts : DatabaseOptions) (hb : 0 < opts.blockSize)
    (hr : 0 ≤ opts.retentionPeriod) :
    opts.retentionPeriod < (flushFuel opts : Int) * opts.blockSize := by
  unfold flushFuel
  have hq : ((opts.retentionPeriod / opts.blockSize).toNat : Int) =
      opts.retentionPeriod / opts.blockSize :=
    Int.toNat_of_nonneg (Int.ediv_nonneg hr (le_of_lt hb))
  have h1 := Int.ediv_add_emod opts.retentionPeriod opts.blockSize
  have h2 := Int.emod_lt_of_pos opts.retentionPeriod hb
  push_cast [hq]
  nlinarith

theorem mem_candidateTimes (opts : DatabaseOptions) (tickStart : Int)
    (hb : 0 < opts.blockSize) (hp : 0 ≤ opts.bufferPast)
    (hr : 0 ≤ opts.retentionPeriod) (ht : 0 ≤ tickStart) (x : Int) :
    x ∈ candidateTimes opts tickStart ↔
      (∃ k : Nat, x = getFirstBlockStart opts tickStart - (k : Int) * opts.blockSize) ∧
        tickStart - opts.retentionPeriod < x := by
  unfold candidateTimes
  rw [flushCandidatesGo_mem hb]
  constructor
  · rintro ⟨k, hk, hx, he⟩; exact ⟨⟨k, hx⟩, he⟩
  · rintro ⟨⟨k, hx⟩, he⟩
    refine ⟨k, ?_, hx, he⟩
    have hfl := getFirstBlockStart_le opts tickStart hb hp ht
    have hfg := fuel_mul_gt opts hb hr
    have hkb : (k : Int) * opts.blockSize < (flushFuel opts : Int) * opts.blockSize := by
      linarith
    have := lt_of_mul_lt_mul_right hkb (le_of_lt hb)
    exact_mod_cast this

theorem getTimesToFlush_fst (d : DbState) (tickStart : Int) :
    (getTimesToFlush d tickStart).1 =
      (candidateTimes d.opts tickStart).filter
        (flushable d.opts.maxFlushRetries d.flushAttempted) := rfl

theorem getTimesToFlush_snd (d : DbState) (tickStart : Int) :
    (getTimesToFlush d tickStart).2.flushAttempted =
      ((getTimesToFlush d tickStart).1).foldl reserveBlock d.flushAttempted := rfl

theorem getTimesToFlush_pairwise (d : DbState) (tickStart : Int)
    (hb : 0 < d.opts.blockSize) :
    List.Pairwise (fun x y => y < x) (getTimesToFlush d tickStart).1 := by
  rw [getTimesToFlush_fst]
  exact List.Pairwise.filter _
    (flushCandidatesGo_pairwise hb (flushFuel d.opts) (getFirstBlockStart d.opts tickStart))

theorem getTimesToFlush_nodup (d : DbState) (tickStart : Int)
    (hb : 0 < d.opts.blockSize) : ((getTimesToFlush d tickStart).1).Nodup :=
  (getTimesToFlush_pairwise d tickStart hb).imp (fun h => ne_of_gt h)

theorem prevNumFailures_eq_of_lookup (m : List (Int × flushState)) (t : Int) (st : flushState)
    (h : lookupFS m t = some st) : prevNumFailures m t = st.numFailures := by
  unfold prevNumFailures; rw [h]

/-- Claim C1 (amended): getTimesToFlush(t) returns, most-recent-first, exactly
the block-aligned timestamps of the candidate window, which steps down by one
block size from getFirstBlockStart(t) (the most recent safely-flushable
boundary) through every boundary strictly newer than t minus the retention
period, keeping only timestamps whose state is neither success, nor
in-progress, nor failed with numFailures at least MaxFlushRetries; in the
table scenario of TestGetTimesToFlush at tick 188000s, exactly the twenty
expected timestamps are returned, 28800s, 36000s and 43200s excluded. -/
theorem getTimesToFlush_window_amended (d : DbState) (tickStart : Int)
    (hb : 0 < d.opts.blockSize) (hp : 0 ≤ d.opts.bufferPast)
    (hr : 0 ≤ d.opts.retentionPeriod) (ht : 0 ≤ tickStart) :
    (∀ x : Int, x ∈ (getTimesToFlush d tickStart).1 ↔
        ((∃ k : Nat, x = getFirstBlockStart d.opts tickStart - (k : Int) * d.opts.blockSize) ∧
          tickStart - d.opts.retentionPeriod < x ∧
          flushable d.opts.maxFlushRetries d.flushAttempted x = true)) ∧
    List.Pairwise (fun x y => y < x) (getTimesToFlush d tickStart).1 ∧
    (getTimesToFlush testDb 188000).1 = expectedTimesToFlush := by
  refine ⟨?_, getTimesToFlush_pairwise d tickStart hb, by decide⟩
  intro x
  rw [getTimesToFlush_fst, List.mem_filter, mem_candidateTimes d.opts tickStart hb hp hr ht x]
  exact and_assoc

theorem getTimesToFlush_window_amended_witness :
    0 < testDb.opts.blockSize ∧ (getTimesToFlush testDb 188000).1 = expectedTimesToFlush :=
  ⟨by decide,
    (getTimesToFlush_window_amended testDb 188000 (by decide) (by decide) (by decide)
      (by decide)).2.2⟩

/-- Claim C1 is refuted as stated: at tick 188000s the call returns 21600s,
which lies strictly below getFirstBlockStart(188000s) = 180000s, so the
returned timestamps are not confined to a window that starts at
getFirstBlockStart and runs up to the most recent safely-flushable boundary
before the tick. -/
theorem getTimesToFlush_C1_counterexample :
    (21600 : Int) ∈ (getTimesToFlush testDb 188000).1 ∧
      getFirstBlockStart testOpts 188000 = 180000 ∧ ¬((180000 : Int) ≤ 21600) := by decide

/-- Claim C2: every timestamp returned by getTimesToFlush has its flush-state
status set to in-progress in the flush state table the call returns, before
any shard flush I/O is performed (getTimesToFlush performs none; flushToDisk
runs the shard fan-out only on the already-reserved table). -/
theorem getTimesToFlush_reserves_inProgress (d : DbState) (tickStart : Int)
    (hb : 0 < d.opts.blockSize) :
    ∀ t ∈ (getTimesToFlush d tickStart).1,
      statusAt (getTimesToFlush d tickStart).2.flushAttempted t = some flushInProgress := by
  intro t htm
  rw [getTimesToFlush_snd]
  unfold statusAt
  rw [lookupFS_foldl_reserveBlock_mem _ _ _ (getTimesToFlush_nodup d tickStart hb) htm]
  rfl

theorem getTimesToFlush_reserves_inProgress_witness :
    0 < testDb.opts.blockSize ∧
      statusAt (getTimesToFlush testDb 188000).2.flushAttempted 21600 = some flushInProgress :=
  ⟨by decide, getTimesToFlush_reserves_inProgress testDb 188000 (by decide) 21600 (by decide)⟩

/-- Claim C4: while the global flush status is in-progress, a second unforced
flushToDisk call performs no shard FlushToDisk calls (empty trace) and changes
no state at all (the request is rejected, not queued). -/
theorem flushToDisk_single_flight (d : DbState) (shards : List Shard) (tickStart : Int)
    (h : d.fs = flushInProgress) :
    flushToDisk d shards tickStart false = (d, []) := by
  have hnd : needDiskFlush d tickStart = false := by
    unfold needDiskFlush
    rw [h]
    simp
  unfold flushToDisk
  rw [hnd]
  simp

theorem flushToDisk_single_flight_witness :
    flushingDb.fs = flushInProgress ∧
      flushToDisk flushingDb testShards 188000 false = (flushingDb, []) :=
  ⟨by decide, flushToDisk_single_flight flushingDb testShards 188000 (by decide)⟩

/-- Claim C5 (amended): needDiskFlush(now) is true iff the bootstrap state is
bootstrapped, the database-global flush status is idle, and additionally the
flush state table has no entry recorded for getFirstBlockStart(now). -/
theorem needDiskFlush_gate_amended (d : DbState) (now : Int) :
    needDiskFlush d now = true ↔
      (d.bs = bootstrapped ∧ d.fs = flushNotStarted ∧
        lookupFS d.flushAttempted (getFirstBlockStart d.opts now) = none) := by
  unfold needDiskFlush
  simp [Bool.and_eq_true, decide_eq_true_iff, Option.isNone_iff_eq_none, and_assoc]

/-- Claim C5 is refuted as stated: the state of
TestNeedDiskFlushAttemptedBefore is bootstrapped with idle global status, yet
needDiskFlush returns false because a flush attempt is recorded for the first
block start (86400s at tick 100000s). -/
theorem needDiskFlush_C5_counterexample :
    attemptedDb.bs = bootstrapped ∧ attemptedDb.fs = flushNotStarted ∧
      needDiskFlush attemptedDb 100000 = false := by decide

/-- Claim C6 (amended): getFirstBlockStart(tickStart) returns the most recent
block-aligned candidate timestamp (every candidate of the tick lies at or
below it), truncated down to a block boundary and clamped to never precede
the epoch origin: it is non-negative, divisible by the block size, and when
the cutoff tickStart - blockSize - bufferPast is non-negative it is the
greatest block-aligned value not exceeding that cutoff; with block size 2h,
retention 2 days and buffers 10 minutes, a tick at epoch+14900s yields 0s and
ticks at epoch+15000s and epoch+15100s yield 7200s. -/
theorem getFirstBlockStart_amended :
    (∀ (opts : DatabaseOptions) (tickStart : Int), 0 < opts.blockSize →
        0 ≤ getFirstBlockStart opts tickStart ∧
        opts.blockSize ∣ getFirstBlockStart opts tickStart ∧
        (∀ x ∈ candidateTimes opts tickStart, x ≤ getFirstBlockStart opts tickStart) ∧
        (0 ≤ tickStart - opts.blockSize - opts.bufferPast →
          getFirstBlockStart opts tickStart ≤ tickStart - opts.blockSize - opts.bufferPast ∧
          ∀ m : Int, opts.blockSize ∣ m →
            m ≤ tickStart - opts.blockSize - opts.bufferPast →
            m ≤ getFirstBlockStart opts tickStart)) ∧
    getFirstBlockStart testOpts 14900 = 0 ∧
    getFirstBlockStart testOpts 15000 = 7200 ∧
    getFirstBlockStart testOpts 15100 = 7200 := by
  refine ⟨?_, by decide, by decide, by decide⟩
  intro opts tickStart hb
  refine ⟨le_max_left 0 _, ?_, ?_, ?_⟩
  · rcases le_total (timeTruncate (tickStart - opts.blockSize - opts.bufferPast) opts.blockSize) 0
      with h | h
    · rw [getFirstBlockStart, max_eq_left h]
      exact dvd_zero _
    · rw [getFirstBlockStart, max_eq_right h]
      exact timeTruncate_dvd _ _
  · intro x hx
    exact flushCandidatesGo_mem_le hb _ _ x hx
  · intro h0
    have hq : 0 ≤ timeTruncate (tickStart - opts.blockSize - opts.bufferPast) opts.blockSize :=
      mul_nonneg (le_of_lt hb) (Int.ediv_nonneg h0 (le_of_lt hb))
    rw [getFirstBlockStart, max_eq_right hq]
    refine ⟨timeTruncate_le hb, ?_⟩
    rintro m ⟨c, rfl⟩ hm
    have hc : c ≤ (tickStart - opts.blockSize - opts.bufferPast) / opts.blockSize := by
      rw [Int.le_ediv_iff_mul_le hb]
      linarith [hm, mul_comm opts.blockSize c]
    calc opts.blockSize * c
        ≤ opts.blockSize * ((tickStart - opts.blockSize - opts.bufferPast) / opts.blockSize) :=
          mul_le_mul_of_nonneg_left hc (le_of_lt hb)
      _ = timeTruncate (tickStart - opts.blockSize - opts.bufferPast) opts.blockSize := rfl

theorem getFirstBlockStart_amended_witness :
    0 < testOpts.blockSize ∧ 0 ≤ getFirstBlockStart testOpts 188000 :=
  ⟨by decide, (getFirstBlockStart_amended.1 testOpts 188000 (by decide)).1⟩

/-- Claim C6 is refuted in its "earliest" wording: at tick 188000s the
candidate window contains 21600s, which is strictly below the value 180000s
that getFirstBlockStart returns, so the returned instant is the most recent
candidate boundary, not the earliest one. -/
theorem getFirstBlockStart_C6_counterexample :
    getFirstBlockStart testOpts 188000 = 180000 ∧
      (21600 : Int) ∈ candidateTimes testOpts 188000 ∧ ¬((180000 : Int) ≤ 21600) := by decide

theorem flushToDiskWithTime_foldl (blockStart : Int) :
    ∀ (shards : List Shard) (b : Bool) (l : List (Nat × Int)),
      shards.foldl
          (fun acc s => (acc.1 && s.flushOk blockStart, acc.2 ++ [(s.shardNum, blockStart)]))
          (b, l) =
        (b && shards.all (fun s => s.flushOk blockStart),
          l ++ shards.map (fun s => (s.shardNum, blockStart))) := by
  intro shards
  induction shards with
  | nil => intro b l; simp
  | cons s rest ih =>
    intro b l
    simp only [List.foldl_cons, List.all_cons, List.map_cons]
    rw [ih]
    simp [Bool.and_assoc]

/-- Claim C7: flushToDiskWithTime(blockStart) invokes FlushToDisk(blockStart)
on every shard (the trace holds one call per shard, in order, whatever the
outcomes, so a failure on one shard never skips the remaining shards) and
returns true if and only if every shard succeeded. -/
theorem flushToDiskWithTime_fanout (shards : List Shard) (blockStart : Int) :
    ((flushToDiskWithTime shards blockStart).1 = true ↔
      ∀ s ∈ shards, s.flushOk blockStart = true) ∧
    (flushToDiskWithTime shards blockStart).2 =
      shards.map (fun s => (s.shardNum, blockStart)) ∧
    (flushToDiskWithTime shards blockStart).2.length = shards.length := by
  unfold flushToDiskWithTime
  rw [flushToDiskWithTime_foldl]
  simp [List.all_eq_true]

theorem flushOneBlock_fa (shards : List Shard) (st : DbState × List (Nat × Int)) (t : Int) :
    (flushOneBlock shards st t).1.flushAttempted =
      insertFS st.1.flushAttempted t
        (if (flushToDiskWithTime shards t).1
          then flushState.mk flushSuccess (prevNumFailures st.1.flushAttempted t)
          else flushState.mk flushFailed (prevNumFailures st.1.flushAttempted t + 1)) := rfl

theorem flushFold_lookup_not_mem (shards : List Shard) :
    ∀ (ts : List Int) (st : DbState × List (Nat × Int)) (t : Int), t ∉ ts →
      lookupFS (ts.foldl (flushOneBlock shards) st).1.flushAttempted t =
        lookupFS st.1.flushAttempted t := by
  intro ts
  induction ts with
  | nil => intro st t _; rfl
  | cons a rest ih =>
    intro st t ht
    have h1 : t ≠ a := fun h => ht (h ▸ List.mem_cons_self a rest)
    have h2 : t ∉ rest := fun h => ht (List.mem_cons_of_mem a h)
    simp only [List.foldl_cons]
    rw [ih _ _ h2, flushOneBlock_fa, lookupFS_insertFS_ne _ _ _ _ h1]

theorem flushFold_lookup_mem (shards : List Shard) :
    ∀ (ts : List Int) (st : DbState × List (Nat × Int)) (t : Int), ts.Nodup → t ∈ ts →
      lookupFS (ts.foldl (flushOneBlock shards) st).1.flushAttempted t =
        some (if (flushToDiskWithTime shards t).1
          then flushState.mk flushSuccess (prevNumFailures st.1.flushAttempted t)
          else flushState.mk flushFailed (prevNumFailures st.1.flushAttempted t + 1)) := by
  intro ts
  induction ts with
  | nil => intro st t _ h; cases h
  | cons a rest ih =>
    intro st t hnd hm
    simp only [List.foldl_cons]
    rcases List.mem_cons.mp hm with rfl | hmem
    · have ha : t ∉ rest := (List.nodup_cons.mp hnd).1
      rw [flushFold_lookup_not_mem shards rest _ t ha, flushOneBlock_fa, lookupFS_insertFS_self]
    · have hne : t ≠ a := by rintro rfl; exact (List.nodup_cons.mp hnd).1 hmem
      rw [ih _ _ (List.nodup_cons.mp hnd).2 hmem]
      have hpres : prevNumFailures (flushOneBlock shards st a).1.flushAttempted t =
          prevNumFailures st.1.flushAttempted t := by
        unfold prevNumFailures
        rw [flushOneBlock_fa, lookupFS_insertFS_ne _ _ _ _ hne]
      rw [hpres]

/-- Claim C3 (amended): provided the call is not rejected by the gate (forced,
or needDiskFlush holds), then after flushToDisk(t, forced) completes every
scheduled block timestamp has state success with numFailures unchanged when
every shard's FlushToDisk succeeded for it, and state failed with numFailures
incremented by one otherwise; and the database-global flush status is reset
to idle even if some or all blocks failed. -/
theorem flushToDisk_outcomes_amended (d : DbState) (shards : List Shard) (tickStart : Int)
    (forced : Bool) (hgate : forced = true ∨ needDiskFlush d tickStart = true)
    (hb : 0 < d.opts.blockSize) :
    (flushToDisk d shards tickStart forced).1.fs = flushNotStarted ∧
    ∀ t ∈ scheduledTimes d tickStart,
      lookupFS (flushToDisk d shards tickStart forced).1.flushAttempted t =
        some (if (flushToDiskWithTime shards t).1
          then flushState.mk flushSuccess (prevNumFailures d.flushAttempted t)
          else flushState.mk flushFailed (prevNumFailures d.flushAttempted t + 1)) := by
  have hfa : (flushToDisk d shards tickStart forced).1.flushAttempted =
      (((getTimesToFlush (DbState.mk d.opts d.bs flushInProgress d.flushAttempted) tickStart).1).foldl
          (flushOneBlock shards)
          ((getTimesToFlush (DbState.mk d.opts d.bs flushInProgress d.flushAttempted) tickStart).2,
            ([] : List (Nat × Int)))).1.flushAttempted := by
    cases forced
    · rcases hgate with h | h
      · simp at h
      · unfold flushToDisk; simp only [h]; rfl
    · rfl
  have hfs : (flushToDisk d shards tickStart forced).1.fs = flushNotStarted := by
    cases forced
    · rcases hgate with h | h
      · simp at h
      · unfold flushToDisk; simp only [h]; rfl
    · rfl
  refine ⟨hfs, ?_⟩
  intro t htm
  have hnd1 : ((getTimesToFlush (DbState.mk d.opts d.bs flushInProgress d.flushAttempted)
      tickStart).1).Nodup :=
    getTimesToFlush_nodup (DbState.mk d.opts d.bs flushInProgress d.flushAttempted) tickStart hb
  have htm1 : t ∈ (getTimesToFlush (DbState.mk d.opts d.bs flushInProgress d.flushAttempted)
      tickStart).1 := htm
  rw [hfa, flushFold_lookup_mem shards _ _ t hnd1 htm1]
  have h1 : lookupFS ((getTimesToFlush (DbState.mk d.opts d.bs flushInProgress d.flushAttempted)
        tickStart).2, ([] : List (Nat × Int))).1.flushAttempted t =
      some (flushState.mk flushInProgress (prevNumFailures d.flushAttempted t)) := by
    show lookupFS (getTimesToFlush (DbState.mk d.opts d.bs flushInProgress d.flushAttempted)
        tickStart).2.flushAttempted t = _
    rw [getTimesToFlush_snd]
    exact lookupFS_foldl_reserveBlock_mem _ _ _ hnd1 htm1
  rw [prevNumFailures_eq_of_lookup _ _ _ h1]

theorem flushToDisk_outcomes_amended_witness :
    (false = true ∨ needDiskFlush testDb 188000 = true) ∧
      lookupFS (flushToDisk testDb testShards 188000 false).1.flushAttempted 180000 =
        some (if (flushToDiskWithTime testShards 180000).1
          then flushState.mk flushSuccess (prevNumFailures testDb.flushAttempted 180000)
          else flushState.mk flushFailed (prevNumFailures testDb.flushAttempted 180000 + 1)) :=
  ⟨Or.inr (by decide),
    (flushToDisk_outcomes_amended testDb testShards 188000 false (Or.inr (by decide))
        (by decide)).2 180000 (by decide)⟩

/-- Claim C3 is refuted in its unconditional-reset part: an unforced
flushToDisk call arriving while the database-global flush status is
in-progress is rejected and leaves the status in-progress, not idle. -/
theorem flushToDisk_C3_counterexample :
    (flushToDisk flushingDb testShards 188000 false).1.fs = flushInProgress ∧
      flushInProgress ≠ flushNotStarted := by decide

theorem Range.touches_iff (ex r : Range) :
    Range.touches ex r = true ↔ (ex.Start ≤ r.End ∧ r.Start ≤ ex.End) := by
  simp [Range.touches]

theorem mem_insertSorted : ∀ (l : List Range) (r x : Range),
    x ∈ insertSorted l r ↔ x = r ∨ x ∈ l := by
  intro l
  induction l with
  | nil => intro r x; simp [insertSorted]
  | cons a as ih =>
    intro r x
    simp only [insertSorted]
    by_cases hc : r.Start ≤ a.Start
    · rw [if_pos hc]
      simp [List.mem_cons]
    · rw [if_neg hc]
      simp [List.mem_cons, ih]
      tauto

theorem minStartFold_le_init : ∀ (l : List Range) (a : Int), minStartFold l a ≤ a := by
  intro l
  induction l with
  | nil => intro a; exact le_refl a
  | cons x xs ih =>
    intro a
    calc minStartFold (x :: xs) a = minStartFold xs (min a x.Start) := rfl
      _ ≤ min a x.Start := ih _
      _ ≤ a := min_le_left _ _

theorem minStartFold_le_mem : ∀ (l : List Range) (a : Int) (t : Range), t ∈ l →
    minStartFold l a ≤ t.Start := by
  intro l
  induction l with
  | nil => intro a t ht; cases ht
  | cons x xs ih =>
    intro a t ht
    rcases List.mem_cons.mp ht with rfl | hmem
    · calc minStartFold (t :: xs) a = minStartFold xs (min a t.Start) := rfl
        _ ≤ min a t.Start := minStartFold_le_init _ _
        _ ≤ t.Start := min_le_right _ _
    · exact ih (min a x.Start) t hmem

theorem minStartFold_eq : ∀ (l : List Range) (a : Int),
    minStartFold l a = a ∨ ∃ t ∈ l, minStartFold l a = t.Start := by
  intro l
  induction l with
  | nil => intro a; exact Or.inl rfl
  | cons x xs ih =>
    intro a
    rcases ih (min a x.Start) with h | ⟨t, htm, ht⟩
    · have hm : minStartFold (x :: xs) a = min a x.Start := h
      rcases le_total a x.Start with hc | hc
      · exact Or.inl (by rw [hm, min_eq_left hc])
      · exact Or.inr ⟨x, List.mem_cons_self x xs, by rw [hm, min_eq_right hc]⟩
    · exact Or.inr ⟨t, List.mem_cons_of_mem x htm, ht⟩

theorem lt_minStartFold : ∀ (l : List Range) (a v : Int), v < a → (∀ t ∈ l, v < t.Start) →
    v < minStartFold l a := by
  intro l
  induction l with
  | nil => intro a v hv _; exact hv
  | cons x xs ih =>
    intro a v hv h
    exact ih (min a x.Start) v (lt_min hv (h x (List.mem_cons_self x xs)))
      (fun t ht => h t (List.mem_cons_of_mem x ht))

theorem le_maxEndFold_init : ∀ (l : List Range) (a : Int), a ≤ maxEndFold l a := by
  intro l
  induction l with
  | nil => intro a; exact le_refl a
  | cons x xs ih =>
    intro a
    calc a ≤ max a x.End := le_max_left _ _
      _ ≤ maxEndFold xs (max a x.End) := ih _
      _ = maxEndFold (x :: xs) a := rfl

theorem mem_le_maxEndFold : ∀ (l : List Range) (a : Int) (t : Range), t ∈ l →
    t.End ≤ maxEndFold l a := by
  intro l
  induction l with
  | nil => intro a t ht; cases ht
  | cons x xs ih =>
    intro a t ht
    rcases List.mem_cons.mp ht with rfl | hmem
    · calc t.End ≤ max a t.End := le_max_right _ _
        _ ≤ maxEndFold xs (max a t.End) := le_maxEndFold_init _ _
        _ = maxEndFold (t :: xs) a := rfl
    · exact ih (max a x.End) t hmem

theorem maxEndFold_eq : ∀ (l : List Range) (a : Int),
    maxEndFold l a = a ∨ ∃ t ∈ l, maxEndFold l a = t.End := by
  intro l
  induction l with
  | nil => intro a; exact Or.inl rfl
  | cons x xs ih =>
    intro a
    rcases ih (max a x.End) with h | ⟨t, htm, ht⟩
    · have hm : maxEndFold (x :: xs) a = max a x.End := h
      rcases le_total a x.End with hc | hc
      · exact Or.inr ⟨x, List.mem_cons_self x xs, by rw [hm, max_eq_right hc]⟩
      · exact Or.inl (by rw [hm, max_eq_left hc])
    · exact Or.inr ⟨t, List.mem_cons_of_mem x htm, ht⟩

theorem maxEndFold_lt : ∀ (l : List Range) (a v : Int), a < v → (∀ t ∈ l, t.End < v) →
    maxEndFold l a < v := by
  intro l
  induction l with
  | nil => intro a v hv _; exact hv
  | cons x xs ih =>
    intro a v hv h
    exact ih (max a x.End) v (max_lt hv (h x (List.mem_cons_self x xs)))
      (fun t ht => h t (List.mem_cons_of_mem x ht))

theorem pairwise_sep {s : List Range} (hp : List.Pairwise (fun a b => a.End < b.Start) s)
    {x y : Range} (hx : x ∈ s) (hy : y ∈ s) (hne : x ≠ y) :
    x.End < y.Start ∨ y.End < x.Start := by
  have hsym : Symmetric (fun a b : Range => a.End < b.Start ∨ b.End < a.Start) :=
    fun a b hab => hab.symm
  exact List.Pairwise.forall hsym (hp.imp (fun hab => Or.inl hab)) hx hy hne

theorem AddRange_covered (s : List Range) (r : Range) (p : Int) (hr : r.Start < r.End) :
    covered (AddRange s r) p ↔ covered s p ∨ (r.Start ≤ p ∧ p ≤ r.End) := by
  unfold AddRange covered
  rw [if_neg (ne_of_lt hr)]
  constructor
  · rintro ⟨ex, hex, hs, he⟩
    rcases (mem_insertSorted _ _ _).mp hex with rfl | hmem
    · by_cases hp1 : r.Start ≤ p
      · by_cases hp2 : p ≤ r.End
        · exact Or.inr ⟨hp1, hp2⟩
        · push_neg at hp2
          rcases maxEndFold_eq (s.filter (fun ex => Range.touches ex r)) r.End with
            hq | ⟨t, htm, hq⟩
          · exfalso
            have he' : p ≤ maxEndFold (s.filter (fun ex => Range.touches ex r)) r.End := he
            rw [hq] at he'
            linarith
          · have ht := List.mem_filter.mp htm
            have htt := (Range.touches_iff t r).mp ht.2
            refine Or.inl ⟨t, ht.1, by linarith [htt.1], ?_⟩
            have he' : p ≤ maxEndFold (s.filter (fun ex => Range.touches ex r)) r.End := he
            rw [hq] at he'
            exact he'
      · push_neg at hp1
        rcases minStartFold_eq (s.filter (fun ex => Range.touches ex r)) r.Start with
          hq | ⟨t, htm, hq⟩
        · exfalso
          have hs' : minStartFold (s.filter (fun ex => Range.touches ex r)) r.Start ≤ p := hs
          rw [hq] at hs'
          linarith
        · have ht := List.mem_filter.mp htm
          have htt := (Range.touches_iff t r).mp ht.2
          refine Or.inl ⟨t, ht.1, ?_, by linarith [htt.2]⟩
          have hs' : minStartFold (s.filter (fun ex => Range.touches ex r)) r.Start ≤ p := hs
          rw [hq] at hs'
          exact hs'
    · exact Or.inl ⟨ex, (List.mem_filter.mp hmem).1, hs, he⟩
  · intro h
    rcases h with ⟨ex, hexs, hs, he⟩ | ⟨h1, h2⟩
    · by_cases ht : Range.touches ex r = true
      · refine ⟨Range.mk (minStartFold (s.filter (fun ex => Range.touches ex r)) r.Start)
            (maxEndFold (s.filter (fun ex => Range.touches ex r)) r.End),
          (mem_insertSorted _ _ _).mpr (Or.inl rfl), ?_, ?_⟩
        · exact le_trans (minStartFold_le_mem _ _ ex (List.mem_filter.mpr ⟨hexs, ht⟩)) hs
        · exact le_trans he (mem_le_maxEndFold _ _ ex (List.mem_filter.mpr ⟨hexs, ht⟩))
      · simp only [Bool.not_eq_true] at ht
        refine ⟨ex, (mem_insertSorted _ _ _).mpr (Or.inr (List.mem_filter.mpr ⟨hexs, ?_⟩)),
          hs, he⟩
        simp [ht]
    · refine ⟨Range.mk (minStartFold (s.filter (fun ex => Range.touches ex r)) r.Start)
          (maxEndFold (s.filter (fun ex => Range.touches ex r)) r.End),
        (mem_insertSorted _ _ _).mpr (Or.inl rfl), ?_, ?_⟩
      · exact le_trans (minStartFold_le_init _ _) h1
      · exact le_trans h2 (le_maxEndFold_init _ _)

theorem insertSorted_pairwise : ∀ (l : List Range) (m : Range),
    List.Pairwise (fun a b => a.End < b.Start) l →
    (∀ x ∈ l, x.Start < x.End) → m.Start ≤ m.End →
    (∀ x ∈ l, x.End < m.Start ∨ m.End < x.Start) →
    List.Pairwise (fun a b => a.End < b.Start) (insertSorted l m) := by
  intro l
  induction l with
  | nil =>
    intro m _ _ _ _
    exact List.pairwise_singleton _ m
  | cons x xs ih =>
    intro m hp hwf hm hsep
    simp only [insertSorted]
    by_cases hc : m.Start ≤ x.Start
    · rw [if_pos hc]
      refine List.Pairwise.cons ?_ hp
      intro y hy
      rcases List.mem_cons.mp hy with rfl | hys
      · rcases hsep y (List.mem_cons_self _ _) with h | h
        · have := hwf y (List.mem_cons_self _ _)
          linarith
        · exact h
      · rcases hsep y (List.mem_cons_of_mem _ hys) with h | h
        · have hxy := (List.pairwise_cons.mp hp).1 y hys
          have hwx := hwf x (List.mem_cons_self _ _)
          have hwy := hwf y (List.mem_cons_of_mem _ hys)
          linarith
        · exact h
    · rw [if_neg hc]
      push_neg at hc
      refine List.Pairwise.cons ?_ (ih m (List.pairwise_cons.mp hp).2
        (fun z hz => hwf z (List.mem_cons_of_mem _ hz)) hm
        (fun z hz => hsep z (List.mem_cons_of_mem _ hz)))
      intro y hy
      rcases (mem_insertSorted xs m y).mp hy with rfl | hys
      · rcases hsep x (List.mem_cons_self _ _) with h | h
        · exact h
        · linarith
      · exact (List.pairwise_cons.mp hp).1 y hys

theorem AddRange_inv (s : List Range) (r : Range) (hr : r.Start ≤ r.End)
    (h : RangesInv s) : RangesInv (AddRange s r) := by
  rcases eq_or_lt_of_le hr with heq | hlt
  · unfold AddRange
    rw [if_pos heq]
    exact h
  · obtain ⟨hp, hwf⟩ := h
    unfold AddRange
    rw [if_neg (ne_of_lt hlt)]
    have hsep : ∀ x ∈ s.filter (fun ex => !(Range.touches ex r)),
        x.End < minStartFold (s.filter (fun ex => Range.touches ex r)) r.Start ∨
          maxEndFold (s.filter (fun ex => Range.touches ex r)) r.End < x.Start := by
      intro x hx
      have hxs := (List.mem_filter.mp hx).1
      have hxt : Range.touches x r = false := by
        have := (List.mem_filter.mp hx).2
        simpa using this
      have hnt : ¬(x.Start ≤ r.End ∧ r.Start ≤ x.End) := by
        rw [← Range.touches_iff x r, hxt]
        simp
      push_neg at hnt
      rcases le_or_lt x.Start r.End with hc | hc
      · -- x.End < r.Start: x lies entirely left of r
        have hcc := hnt hc
        left
        apply lt_minStartFold
        · exact hcc
        · intro t htm
          have hts := (List.mem_filter.mp htm).1
          have htt := (Range.touches_iff t r).mp (List.mem_filter.mp htm).2
          have hne : t ≠ x := by
            rintro rfl
            have h1 := (List.mem_filter.mp htm).2
            rw [hxt] at h1
            simp at h1
          rcases pairwise_sep hp hts hxs hne with hsep2 | hsep2
          · -- t.End < x.Start; but r.Start ≤ t.End and x.End < r.Start
            have hwx := hwf x hxs
            linarith [htt.2]
          · exact hsep2
      · -- r.End < x.Start: x lies entirely right of r
        right
        apply maxEndFold_lt
        · exact hc
        · intro t htm
          have hts := (List.mem_filter.mp htm).1
          have htt := (Range.touches_iff t r).mp (List.mem_filter.mp htm).2
          have hne : t ≠ x := by
            rintro rfl
            have h1 := (List.mem_filter.mp htm).2
            rw [hxt] at h1
            simp at h1
          rcases pairwise_sep hp hts hxs hne with hsep2 | hsep2
          · exact hsep2
          · -- x.End < t.Start; but t.Start ≤ r.End < x.Start ≤ x.End
            have hwx := hwf x hxs
            linarith [htt.1]
    constructor
    · apply insertSorted_pairwise
      · exact hp.filter _
      · intro x hx
        exact hwf x (List.mem_filter.mp hx).1
      · show minStartFold (s.filter (fun ex => Range.touches ex r)) r.Start ≤
          maxEndFold (s.filter (fun ex => Range.touches ex r)) r.End
        have h1 := minStartFold_le_init (s.filter (fun ex => Range.touches ex r)) r.Start
        have h2 := le_maxEndFold_init (s.filter (fun ex => Range.touches ex r)) r.End
        linarith
      · exact hsep
    · intro ex hex
      rcases (mem_insertSorted _ _ ex).mp hex with rfl | hmem
      · show minStartFold (s.filter (fun ex => Range.touches ex r)) r.Start <
          maxEndFold (s.filter (fun ex => Range.touches ex r)) r.End
        have h1 := minStartFold_le_init (s.filter (fun ex => Range.touches ex r)) r.Start
        have h2 := le_maxEndFold_init (s.filter (fun ex => Range.touches ex r)) r.End
        linarith
      · exact hwf ex (List.mem_filter.mp hmem).1

theorem AddRange_nil (a : Range) (ha : a.Start < a.End) : AddRange [] a = [a] := by
  unfold AddRange
  rw [if_neg (ne_of_lt ha)]
  rfl

theorem AddRange_pair_touch (a b : Range) (ha : a.Start < a.End) (hb : b.Start < b.End)
    (h1 : a.Start ≤ b.End) (h2 : b.Start ≤ a.End) :
    AddRange (AddRange [] a) b = [Range.mk (min a.Start b.Start) (max a.End b.End)] := by
  rw [AddRange_nil a ha]
  unfold AddRange
  rw [if_neg (ne_of_lt hb)]
  have ht : Range.touches a b = true := (Range.touches_iff a b).mpr ⟨h1, h2⟩
  simp [ht, insertSorted, minStartFold, maxEndFold, min_comm, max_comm]

theorem AddRange_pair_disjoint (a b : Range) (ha : a.Start < a.End) (hb : b.Start < b.End)
    (h : a.End < b.Start) :
    AddRange (AddRange [] a) b = [a, b] := by
  rw [AddRange_nil a ha]
  unfold AddRange
  rw [if_neg (ne_of_lt hb)]
  have ht : Range.touches a b = false := by
    have : ¬ (a.Start ≤ b.End ∧ b.Start ≤ a.End) := by
      rintro ⟨_, hc⟩
      linarith
    rw [← Bool.not_eq_true, Range.touches_iff]
    exact this
  simp only [ht, List.filter_cons, List.filter_nil, Bool.not_false, if_pos]
  simp only [insertSorted, minStartFold, maxEndFold, List.foldl_nil]
  rw [if_neg (by show ¬ b.Start ≤ a.Start; linarith)]
  rfl

/-- Claim C8: for every stored sequence and every non-zero-length range r,
AddRange(r) merges r with every stored range that overlaps or touches it
(existing.Start le r.End and r.Start le existing.End) into one stored range
spanning the minimum Start and maximum End of the merged group, while
disjoint non-touching ranges remain as separate entries sorted ascending by
Start: pointwise, the result covers exactly the points of the old set plus
those of r; the separated-and-sorted invariant is preserved; and on two
ranges the merged and disjoint outcomes are as stated. -/
theorem AddRange_merge_spec :
    (∀ (s : List Range) (r : Range) (p : Int), r.Start < r.End →
        (covered (AddRange s r) p ↔ covered s p ∨ (r.Start ≤ p ∧ p ≤ r.End))) ∧
    (∀ (s : List Range) (r : Range), r.Start ≤ r.End → RangesInv s →
        RangesInv (AddRange s r)) ∧
    (∀ a b : Range, a.Start < a.End → b.Start < b.End → a.Start ≤ b.End → b.Start ≤ a.End →
        AddRange (AddRange [] a) b = [Range.mk (min a.Start b.Start) (max a.End b.End)]) ∧
    (∀ a b : Range, a.Start < a.End → b.Start < b.End → a.End < b.Start →
        AddRange (AddRange [] a) b = [a, b]) :=
  ⟨fun s r p hr => AddRange_covered s r p hr,
    fun s r hr h => AddRange_inv s r hr h,
    fun a b ha hb h1 h2 => AddRange_pair_touch a b ha hb h1 h2,
    fun a b ha hb h => AddRange_pair_disjoint a b ha hb h⟩

theorem AddRange_merge_spec_witness :
    (0 : Int) < 2 ∧
      AddRange (AddRange [] (Range.mk 0 2)) (Range.mk 1 3) =
        [Range.mk (min (0 : Int) 1) (max (2 : Int) 3)] :=
  ⟨by decide,
    AddRange_merge_spec.2.2.1 (Range.mk 0 2) (Range.mk 1 3) (by decide) (by decide)
      (by decide) (by decide)⟩

theorem subtract_full_case (ex r : Range) (hex : ex.Start < ex.End)
    (h1 : r.Start ≤ ex.Start) (h2 : ex.End ≤ r.End) : Range.subtract ex r = [] := by
  unfold Range.subtract
  rw [if_neg (by push_neg; constructor <;> linarith), if_neg (by linarith),
    if_neg (by linarith)]
  rfl

theorem subtract_tail_case (ex r : Range) (h1 : r.Start ≤ ex.Start) (h2 : ex.Start < r.End)
    (h3 : r.End < ex.End) : Range.subtract ex r = [Range.mk r.End ex.End] := by
  unfold Range.subtract
  rw [if_neg (by push_neg; constructor <;> linarith), if_neg (by linarith), if_pos h3]
  rfl

theorem subtract_head_case (ex r : Range) (h1 : ex.Start < r.Start) (h2 : r.Start < ex.End)
    (h3 : ex.End ≤ r.End) : Range.subtract ex r = [Range.mk ex.Start r.Start] := by
  unfold Range.subtract
  rw [if_neg (by push_neg; constructor <;> linarith), if_pos h1, if_neg (by linarith)]
  rfl

theorem subtract_interior_case (ex r : Range) (hr : r.Start < r.End)
    (h1 : ex.Start < r.Start) (h2 : r.End < ex.End) :
    Range.subtract ex r = [Range.mk ex.Start r.Start, Range.mk r.End ex.End] := by
  unfold Range.subtract
  rw [if_neg (by push_neg; constructor <;> linarith), if_pos h1, if_pos h2]
  rfl

theorem subtract_disjoint_case (ex r : Range) (h : r.End ≤ ex.Start ∨ ex.End ≤ r.Start) :
    Range.subtract ex r = [ex] := by
  unfold Range.subtract
  rw [if_pos h]

theorem removeRangeGo_disjoint (r : Range) : ∀ s : List Range,
    (∀ ex ∈ s, r.End ≤ ex.Start ∨ ex.End ≤ r.Start) → removeRangeGo s r = s := by
  intro s
  induction s with
  | nil => intro _; rfl
  | cons ex rest ih =>
    intro h
    show Range.subtract ex r ++ removeRangeGo rest r = ex :: rest
    rw [subtract_disjoint_case ex r (h ex (List.mem_cons_self _ _)),
      ih (fun z hz => h z (List.mem_cons_of_mem _ hz))]
    rfl

/-- Claim C9: for every stored sequence and every non-zero-length range r,
RemoveRange(r) subtracts r from every stored range in place: a zero-length r
is a no-op; an r disjoint from (or merely touching) every stored range is a
no-op; subtraction distributes over the stored sequence; and on one stored
range the four spec cases hold: full coverage drops it, a tail overlap
shrinks its Start to r.End, a head overlap shrinks its End to r.Start, and a
strictly interior r splits it into the two remainder ranges. -/
theorem RemoveRange_subtract_spec :
    (∀ (s : List Range) (r : Range), r.Start = r.End → RemoveRange s r = s) ∧
    (∀ (s : List Range) (r : Range), r.Start < r.End →
        (∀ ex ∈ s, r.End ≤ ex.Start ∨ ex.End ≤ r.Start) → RemoveRange s r = s) ∧
    (∀ (ex : Range) (rest : List Range) (r : Range), r.Start < r.End →
        RemoveRange (ex :: rest) r = Range.subtract ex r ++ RemoveRange rest r) ∧
    (∀ ex r : Range, ex.Start < ex.End → r.Start ≤ ex.Start → ex.End ≤ r.End →
        Range.subtract ex r = []) ∧
    (∀ ex r : Range, r.Start ≤ ex.Start → ex.Start < r.End → r.End < ex.End →
        Range.subtract ex r = [Range.mk r.End ex.End]) ∧
    (∀ ex r : Range, ex.Start < r.Start → r.Start < ex.End → ex.End ≤ r.End →
        Range.subtract ex r = [Range.mk ex.Start r.Start]) ∧
    (∀ ex r : Range, r.Start < r.End → ex.Start < r.Start → r.End < ex.End →
        Range.subtract ex r = [Range.mk ex.Start r.Start, Range.mk r.End ex.End]) := by
  refine ⟨?_, ?_, ?_, ?_, ?_, ?_, ?_⟩
  · intro s r h
    unfold RemoveRange
    rw [if_pos h]
  · intro s r hr h
    unfold RemoveRange
    rw [if_neg (ne_of_lt hr)]
    exact removeRangeGo_disjoint r s h
  · intro ex rest r hr
    unfold RemoveRange
    rw [if_neg (ne_of_lt hr), if_neg (ne_of_lt hr)]
    rfl
  · exact fun ex r hex h1 h2 => subtract_full_case ex r hex h1 h2
  · exact fun ex r h1 h2 h3 => subtract_tail_case ex r h1 h2 h3
  · exact fun ex r h1 h2 h3 => subtract_head_case ex r h1 h2 h3
  · exact fun ex r hr h1 h2 => subtract_interior_case ex r hr h1 h2

theorem RemoveRange_subtract_spec_witness :
    (10 : Int) < 12 ∧
      Range.subtract (Range.mk 10 15) (Range.mk 12 13) =
        [Range.mk 10 12, Range.mk 13 15] :=
  ⟨by decide,
    RemoveRange_subtract_spec.2.2.2.2.2.2 (Range.mk 10 15) (Range.mk 12 13) (by decide)
      (by decide) (by decide)⟩

theorem getD_append_self (l : List (List Range)) (x : List Range) :
    (l ++ [x]).getD l.length [] = x := by
  simp [List.getD_append_right, Nat.le_refl]

/-- Claim C10: the mutating operations AddRange, RemoveRange, AddRanges and
RemoveRanges on a stored reference return a new logical set while the
contents observed through any prior reference are exactly what they were
before the call; the fresh reference each operation returns reads back as the
operation's value-level result. -/
theorem ranges_copy_on_write (w : RangesStore) (i j : Nat) (r : Range)
    (other : List Range) (hj : j < w.objs.length) :
    (addRangeRef w i r).1.read j = w.read j ∧
    (removeRangeRef w i r).1.read j = w.read j ∧
    (addRangesRef w i other).1.read j = w.read j ∧
    (removeRangesRef w i other).1.read j = w.read j ∧
    (addRangeRef w i r).1.read (addRangeRef w i r).2 = AddRange (w.read i) r ∧
    (removeRangeRef w i r).1.read (removeRangeRef w i r).2 = RemoveRange (w.read i) r ∧
    (addRangesRef w i other).1.read (addRangesRef w i other).2 = AddRanges (w.read i) other ∧
    (removeRangesRef w i other).1.read (removeRangesRef w i other).2 =
      RemoveRanges (w.read i) other := by
  refine ⟨?_, ?_, ?_, ?_, ?_, ?_, ?_, ?_⟩
  · exact List.getD_append _ _ _ _ hj
  · exact List.getD_append _ _ _ _ hj
  · exact List.getD_append _ _ _ _ hj
  · exact List.getD_append _ _ _ _ hj
  · exact getD_append_self _ _
  · exact getD_append_self _ _
  · exact getD_append_self _ _
  · exact getD_append_self _ _

theorem ranges_copy_on_write_witness :
    0 < testStore.objs.length ∧
      (addRangeRef testStore 0 (Range.mk 2 3)).1.read 0 = testStore.read 0 :=
  ⟨by decide, (ranges_copy_on_write testStore 0 0 (Range.mk 2 3) [] (by decide)).1⟩
